import Mathlib

/-!
Verification of the simulation core of the tree-game repository.

The development shallowly embeds, over the real numbers, the per-frame
kinematic update of the vehicle (src/unnamed/part_007, class Car), the
headlight visibility pass and the collision pass
(src/lib/game/environment.ts), the dust particle system
(src/unnamed/part_006, class DustParticleSystem) and the lifecycle state of
the frame scheduler (src/unnamed/part_005, class GameEngine).

JavaScript doubles are modelled as real numbers; Math.pow is modelled by
the real power function Real.rpow, Math.random draws are modelled by an
explicit stream of values passed as a parameter.
-/

noncomputable section

namespace TreeGame

open Real

/-! ### Three-dimensional vectors (THREE.Vector3 operations used by the core) -/

structure Vec3 where
  x : ℝ
  y : ℝ
  z : ℝ

namespace Vec3

def add (a b : Vec3) : Vec3 := ⟨a.x + b.x, a.y + b.y, a.z + b.z⟩

def sub (a b : Vec3) : Vec3 := ⟨a.x - b.x, a.y - b.y, a.z - b.z⟩

def smul (v : Vec3) (r : ℝ) : Vec3 := ⟨v.x * r, v.y * r, v.z * r⟩

def dot (a b : Vec3) : ℝ := a.x * b.x + a.y * b.y + a.z * b.z

def cross (a b : Vec3) : Vec3 :=
  ⟨a.y * b.z - a.z * b.y, a.z * b.x - a.x * b.z, a.x * b.y - a.y * b.x⟩

def lengthSq (v : Vec3) : ℝ := v.x * v.x + v.y * v.y + v.z * v.z

def length (v : Vec3) : ℝ := Real.sqrt v.lengthSq

/-- THREE.Vector3.normalize divides by `length || 1`: a zero-length vector is
divided by 1 and therefore left unchanged. -/
def normalize (v : Vec3) : Vec3 :=
  v.smul (1 / (if v.length = 0 then 1 else v.length))

def distanceTo (a b : Vec3) : ℝ := (a.sub b).length

end Vec3

/-! ### Constants from src/lib/game/config.ts -/

def PLANET_RADIUS : ℝ := 1000

def HEADLIGHT_RANGE : ℝ := 1000

def HEADLIGHT_ANGLE : ℝ := Real.pi / 3.5

def COLLISION_THRESHOLD : ℝ := 28

/-! ### Vehicle kinematic model (class Car, src/unnamed/part_007)

The kinematic state consists of the scalar speed, the steering offset and
the heading angle; the key-state table is a function from key codes to
booleans, exactly as read by Car.update (codes 39/68 turn right, 37/65 turn
left, 38/87 accelerate, 40/83 brake). -/

structure CarState where
  speed : ℝ
  steering : ℝ
  angle : ℝ

/-- Field maxSpeed of class Car; initialised to 3 and never reassigned. -/
def maxSpeed : ℝ := 3

/-- Line 72 of part_007:
deltaFactor = delta > 0 ? Math.min(delta * 60, 2.5) : 1. -/
def deltaFactor (delta : ℝ) : ℝ :=
  if 0 < delta then min (delta * 60) 2.5 else 1

/-- Lines 70-94 of part_007: the state-variable part of Car.update.
Steering is saturated at plus/minus 0.01 or decays by 0.92 to the
deltaFactor; speed accelerates, brakes or decays by 0.96 to the
deltaFactor, is then damped by the steering magnitude, and the heading
angle integrates steering times speed. -/
def Car.update (keyState : ℕ → Bool) (delta : ℝ) (c : CarState) : CarState :=
  let df := deltaFactor delta
  let steerPower := 0.0008 * df
  let maxSteering : ℝ := 0.01
  let steering :=
    if keyState 39 || keyState 68 then min (c.steering + steerPower) maxSteering
    else if keyState 37 || keyState 65 then max (c.steering - steerPower) (-maxSteering)
    else c.steering * (0.92 : ℝ) ^ df
  let speed0 :=
    if keyState 38 || keyState 87 then
      c.speed + (if c.speed < maxSpeed then 0.04 * df else 0)
    else if keyState 40 || keyState 83 then
      c.speed - (if -maxSpeed / 2 < c.speed then 0.04 * df else 0)
    else c.speed * (0.96 : ℝ) ^ df
  let speed := speed0 * (1 - |steering / 2|)
  { speed := speed, steering := steering, angle := c.angle + steering * speed * df }

/-- Line 102 of part_007: the magnitude of the world-frame rotation applied
to the planet group this frame, computed from the post-update speed. -/
def Car.rotationAmount (keyState : ℕ → Bool) (delta : ℝ) (c : CarState) : ℝ :=
  ((Car.update keyState delta c).speed / PLANET_RADIUS) * deltaFactor delta

/-- The constructor of class Car starts with speed 0, steering 0, angle 0. -/
def carInit : CarState := ⟨0, 0, 0⟩

/-- Only the accelerate input is held: key 38 or 87 pressed, both turn keys
released. -/
def AccelOnly (k : ℕ → Bool) : Prop :=
  (k 38 = true ∨ k 87 = true) ∧ k 39 = false ∧ k 68 = false ∧ k 37 = false ∧ k 65 = false

/-- A concrete key table holding only the up-arrow accelerate key. -/
def accelKeys : ℕ → Bool := fun n => n == 38

/-- A concrete key table with no key held. -/
def noKeys : ℕ → Bool := fun _ => false

/-! Basic facts about the delta factor. -/

theorem deltaFactor_pos (delta : ℝ) : 0 < deltaFactor delta := by
  unfold deltaFactor
  split
  · exact lt_min (by linarith) (by norm_num)
  · norm_num

theorem deltaFactor_le (delta : ℝ) : deltaFactor delta ≤ 2.5 := by
  unfold deltaFactor
  split
  · exact min_le_right _ _
  · norm_num

theorem deltaFactor_of_nonpos {delta : ℝ} (h : delta ≤ 0) : deltaFactor delta = 1 := by
  unfold deltaFactor
  rw [if_neg (by linarith)]

/-- With only accelerate held, the speed after one update is the
(conditionally incremented) speed damped by the new steering magnitude. -/
theorem car_update_speed_accel {k : ℕ → Bool} (hk : AccelOnly k) (delta : ℝ) (c : CarState) :
    (Car.update k delta c).speed =
      (c.speed + (if c.speed < maxSpeed then 0.04 * deltaFactor delta else 0)) *
        (1 - |c.steering * (0.92 : ℝ) ^ deltaFactor delta / 2|) := by
  obtain ⟨h38, h39, h68, h37, h65⟩ := hk
  rcases h38 with h | h <;> simp [Car.update, h, h39, h68, h37, h65]

/-- With only accelerate held, steering decays multiplicatively. -/
theorem car_update_steering_accel {k : ℕ → Bool} (hk : AccelOnly k) (delta : ℝ) (c : CarState) :
    (Car.update k delta c).steering = c.steering * (0.92 : ℝ) ^ deltaFactor delta := by
  obtain ⟨h38, h39, h68, h37, h65⟩ := hk
  rcases h38 with h | h <;> simp [Car.update, h, h39, h68, h37, h65]

/-- With only accelerate held and steering already zero, one update keeps
steering at zero, keeps the angle, and either adds one acceleration
increment to the speed (when below maxSpeed) or leaves the speed alone. -/
theorem car_accel_step {k : ℕ → Bool} (hk : AccelOnly k) (delta : ℝ) (c : CarState)
    (hs : c.steering = 0) :
    Car.update k delta c =
      { speed := if c.speed < maxSpeed then c.speed + 0.04 * deltaFactor delta else c.speed,
        steering := 0, angle := c.angle } := by
  obtain ⟨h38, h39, h68, h37, h65⟩ := hk
  rcases h38 with h | h <;>
    · simp only [Car.update, h, h39, h68, h37, h65, Bool.or_false, Bool.false_or,
        Bool.or_true, Bool.true_or, if_true, Bool.false_eq_true, if_false, hs, zero_mul,
        zero_div, abs_zero, sub_zero, mul_one, mul_zero, add_zero]
      split <;> simp

/-- The speed bound 3.1 is preserved by an accelerate-only update from any
state whose steering respects the steering invariant. -/
theorem car_accel_speed_le {k : ℕ → Bool} (hk : AccelOnly k) (delta : ℝ) (c : CarState)
    (hst : |c.steering| ≤ 0.01) (hsp : c.speed ≤ 3.1) :
    (Car.update k delta c).speed ≤ 3.1 := by
  rw [car_update_speed_accel hk]
  have hdf0 : 0 < deltaFactor delta := deltaFactor_pos delta
  have hdf1 : deltaFactor delta ≤ 2.5 := deltaFactor_le delta
  have hpow0 : (0 : ℝ) ≤ (0.92 : ℝ) ^ deltaFactor delta := rpow_nonneg (by norm_num) _
  have hpow1 : (0.92 : ℝ) ^ deltaFactor delta ≤ 1 := rpow_le_one (by norm_num) (by norm_num) hdf0.le
  set st := c.steering * (0.92 : ℝ) ^ deltaFactor delta with hst_def
  have hst' : |st| ≤ 0.01 := by
    rw [hst_def, abs_mul, abs_of_nonneg hpow0]
    calc |c.steering| * (0.92 : ℝ) ^ deltaFactor delta ≤ 0.01 * 1 :=
          mul_le_mul hst hpow1 hpow0 (by norm_num)
      _ = 0.01 := mul_one _
  have habs : |st / 2| ≤ 0.005 := by
    rw [abs_div]
    rw [show |(2 : ℝ)| = 2 by norm_num]
    linarith
  have hfac0 : 0 ≤ 1 - |st / 2| := by linarith
  have hfac1 : 1 - |st / 2| ≤ 1 := by
    have := abs_nonneg (st / 2)
    linarith
  set s0 := c.speed + (if c.speed < maxSpeed then 0.04 * deltaFactor delta else 0) with hs0_def
  have hs0 : s0 ≤ 3.1 := by
    rw [hs0_def]
    split
    · have : c.speed < maxSpeed := by assumption
      rw [maxSpeed] at this
      nlinarith
    · linarith
  rcases le_or_lt s0 0 with h0 | h0
  · have : s0 * (1 - |st / 2|) ≤ 0 := mul_nonpos_iff.mpr (Or.inr ⟨h0, hfac0⟩)
    linarith
  · calc s0 * (1 - |st / 2|) ≤ s0 * 1 := mul_le_mul_of_nonneg_left hfac1 h0.le
      _ = s0 := mul_one _
      _ ≤ 3.1 := hs0

/-- Claim C1 (counterexample): from the in-range state with speed 2.99 and
steering 0, a single accelerate-only update with delta 1 (deltaFactor 2.5)
pushes the speed to 3.09, strictly above maxSpeed = 3.0. -/
theorem car_accel_can_exceed_maxSpeed :
    maxSpeed < (Car.update accelKeys 1 ⟨2.99, 0, 0⟩).speed := by
  have hk : AccelOnly accelKeys := ⟨Or.inl rfl, rfl, rfl, rfl, rfl⟩
  rw [car_accel_step hk 1 ⟨2.99, 0, 0⟩ rfl]
  have hdf : deltaFactor 1 = 2.5 := by
    rw [deltaFactor, if_pos (by norm_num), min_eq_right (by norm_num)]
  simp only [hdf]
  rw [if_pos (by norm_num [maxSpeed])]
  norm_num [maxSpeed]

/-- Claim C1 (amended): for every delta, with only accelerate held and
starting from steering 0 and speed in the admissible range, the speed after
every update stays strictly below maxSpeed + 0.04 * deltaFactor (which is at
most 3.1, but can strictly exceed maxSpeed = 3.0); the speed bound 3.1 is
also preserved from any state with the steering invariant; and after
finitely many updates the state is constant with speed at least maxSpeed. -/
theorem car_accel_speed_band (k : ℕ → Bool) (hk : AccelOnly k) (delta s0 : ℝ)
    (h0 : -(maxSpeed / 2) ≤ s0) (h1 : s0 ≤ maxSpeed) :
    (∀ n : ℕ, ((Car.update k delta)^[n] ⟨s0, 0, 0⟩).speed < maxSpeed + 0.04 * deltaFactor delta) ∧
    maxSpeed + 0.04 * deltaFactor delta ≤ 3.1 ∧
    (∀ c : CarState, |c.steering| ≤ 0.01 → c.speed ≤ 3.1 → (Car.update k delta c).speed ≤ 3.1) ∧
    (∃ N : ℕ, ∀ n, N ≤ n →
      maxSpeed ≤ ((Car.update k delta)^[n] ⟨s0, 0, 0⟩).speed ∧
      (Car.update k delta)^[n + 1] ⟨s0, 0, 0⟩ = (Car.update k delta)^[n] ⟨s0, 0, 0⟩) := by
  have hdf0 : 0 < deltaFactor delta := deltaFactor_pos delta
  have hdf1 : deltaFactor delta ≤ 2.5 := deltaFactor_le delta
  have hinc : 0 < 0.04 * deltaFactor delta := by linarith
  have hinc' : 0.04 * deltaFactor delta ≤ 0.1 := by linarith
  have key : ∀ n : ℕ, ((Car.update k delta)^[n] ⟨s0, 0, 0⟩).steering = 0 ∧
      ((Car.update k delta)^[n] ⟨s0, 0, 0⟩).speed < maxSpeed + 0.04 * deltaFactor delta ∧
      (maxSpeed ≤ ((Car.update k delta)^[n] ⟨s0, 0, 0⟩).speed ∨
        ((Car.update k delta)^[n] ⟨s0, 0, 0⟩).speed = s0 + n * (0.04 * deltaFactor delta)) := by
    intro n
    induction n with
    | zero =>
      refine ⟨rfl, by simpa using by linarith, Or.inr (by simp)⟩
    | succ n ih =>
      obtain ⟨ihst, ihlt, ihd⟩ := ih
      rw [Function.iterate_succ_apply', car_accel_step hk delta _ ihst]
      by_cases hsp : ((Car.update k delta)^[n] ⟨s0, 0, 0⟩).speed < maxSpeed
      · refine ⟨rfl, ?_, ?_⟩
        · simp only [if_pos hsp]
          rw [maxSpeed] at hsp ⊢
          linarith
        · right
          simp only [if_pos hsp]
          rcases ihd with h | h
          · exact absurd hsp (not_lt.2 h)
          · rw [h]
            push_cast
            ring
      · exact ⟨rfl, by simp only [if_neg hsp]; exact ihlt,
          Or.inl (by simp only [if_neg hsp]; exact not_lt.1 hsp)⟩
  refine ⟨fun n => (key n).2.1, by rw [maxSpeed]; linarith, car_accel_speed_le hk delta, ?_⟩
  refine ⟨Nat.ceil ((maxSpeed - s0) / (0.04 * deltaFactor delta)), fun n hn => ?_⟩
  have hge : maxSpeed ≤ ((Car.update k delta)^[n] ⟨s0, 0, 0⟩).speed := by
    rcases (key n).2.2 with h | h
    · exact h
    · rw [h]
      have h2 : ((maxSpeed - s0) / (0.04 * deltaFactor delta)) ≤ (n : ℝ) := by
        calc ((maxSpeed - s0) / (0.04 * deltaFactor delta))
            ≤ (Nat.ceil ((maxSpeed - s0) / (0.04 * deltaFactor delta)) : ℝ) := Nat.le_ceil _
          _ ≤ (n : ℝ) := Nat.cast_le.2 hn
      have h3 : maxSpeed - s0 ≤ (n : ℝ) * (0.04 * deltaFactor delta) :=
        (div_le_iff₀ hinc).1 h2
      linarith
  refine ⟨hge, ?_⟩
  rw [Function.iterate_succ_apply', car_accel_step hk delta _ (key n).1]
  rw [if_neg (not_lt.2 hge)]
  calc ({ speed := ((Car.update k delta)^[n] ⟨s0, 0, 0⟩).speed, steering := 0,
          angle := ((Car.update k delta)^[n] ⟨s0, 0, 0⟩).angle } : CarState)
      = { speed := ((Car.update k delta)^[n] ⟨s0, 0, 0⟩).speed,
          steering := ((Car.update k delta)^[n] ⟨s0, 0, 0⟩).steering,
          angle := ((Car.update k delta)^[n] ⟨s0, 0, 0⟩).angle } := by rw [(key n).1]
    _ = (Car.update k delta)^[n] ⟨s0, 0, 0⟩ := rfl

/-- Witness for car_accel_speed_band at key table accelKeys, delta 1/60,
initial speed 0, evaluated after three updates. -/
theorem car_accel_speed_band_witness :
    ((Car.update accelKeys (1 / 60))^[3] ⟨0, 0, 0⟩).speed <
      maxSpeed + 0.04 * deltaFactor (1 / 60) :=
  (car_accel_speed_band accelKeys ⟨Or.inl rfl, rfl, rfl, rfl, rfl⟩ (1 / 60) 0
    (by norm_num [maxSpeed]) (by norm_num [maxSpeed])).1 3

/-- One frame of Car.update keeps the steering magnitude within 0.01,
whatever the key table and delta are. -/
theorem car_steering_step (k : ℕ → Bool) (delta : ℝ) (c : CarState)
    (h : |c.steering| ≤ 0.01) : |(Car.update k delta c).steering| ≤ 0.01 := by
  have hdf0 : 0 < deltaFactor delta := deltaFactor_pos delta
  have hsp : 0 ≤ 0.0008 * deltaFactor delta := by linarith
  obtain ⟨hlo, hhi⟩ := abs_le.1 h
  unfold Car.update
  simp only
  split
  · rw [abs_le]
    constructor
    · exact le_min (by linarith) (by norm_num)
    · exact min_le_right _ _
  · split
    · rw [abs_le]
      constructor
      · exact le_max_right _ _
      · exact max_le (by linarith) (by norm_num)
    · have hpow0 : (0 : ℝ) ≤ (0.92 : ℝ) ^ deltaFactor delta := rpow_nonneg (by norm_num) _
      have hpow1 : (0.92 : ℝ) ^ deltaFactor delta ≤ 1 :=
        rpow_le_one (by norm_num) (by norm_num) hdf0.le
      rw [abs_mul, abs_of_nonneg hpow0]
      calc |c.steering| * (0.92 : ℝ) ^ deltaFactor delta ≤ 0.01 * 1 :=
            mul_le_mul h hpow1 hpow0 (by norm_num)
        _ = 0.01 := mul_one _

/-- A sequence of frames: each entry carries the key table read that frame
and the delta passed to Car.update. -/
def carRun : List ((ℕ → Bool) × ℝ) → CarState → CarState
  | [], c => c
  | inp :: rest, c => carRun rest (Car.update inp.1 inp.2 c)

theorem car_steering_run (inputs : List ((ℕ → Bool) × ℝ)) :
    ∀ c : CarState, |c.steering| ≤ 0.01 → |(carRun inputs c).steering| ≤ 0.01 := by
  induction inputs with
  | nil => exact fun c h => h
  | cons inp rest ih =>
    exact fun c h => ih _ (car_steering_step inp.1 inp.2 c h)

/-- Claim C2: starting from the constructed car, after any sequence of
Car.update calls with arbitrary key tables and deltas, the steering stays
within 0.01 in magnitude. -/
theorem car_steering_invariant (inputs : List ((ℕ → Bool) × ℝ)) :
    |(carRun inputs carInit).steering| ≤ 0.01 :=
  car_steering_run inputs carInit (by norm_num [carInit])

/-- Claim C8: with speed 0, steering 0 and no key held, one Car.update
leaves the speed (and steering) exactly 0: the multiplicative decays have 0
as a fixed point. -/
theorem car_update_rest_fixed (k : ℕ → Bool) (delta angle : ℝ) (hk : ∀ n, k n = false) :
    (Car.update k delta ⟨0, 0, angle⟩).speed = 0 ∧
    (Car.update k delta ⟨0, 0, angle⟩).steering = 0 := by
  constructor <;> simp [Car.update, hk]

/-- Witness for car_update_rest_fixed with the empty key table and delta 0. -/
theorem car_update_rest_fixed_witness :
    (Car.update noKeys 0 ⟨0, 0, 0⟩).speed = 0 ∧
    (Car.update noKeys 0 ⟨0, 0, 0⟩).steering = 0 :=
  car_update_rest_fixed noKeys 0 0 (fun _ => rfl)

/-! ### Headlight visibility pass (updateObjectVisibility, environment.ts)

Per obstacle, lines 201-235 compute an intensity from the distance and the
angle to the headlight axis, clamp it to at most 1, write it as the opacity
of every material of the obstacle, and set the visibility flag to
intensity strictly above 0.02. The car forward vector is the unit x axis
rotated by the car quaternion and then normalized; it enters the model as
an arbitrary vector that the function normalizes. -/

/-- The intensity value written as opacity to one obstacle by
updateObjectVisibility (lines 202-217 of environment.ts). -/
def objectIntensity (lightsOn : Bool) (carPos carForwardRaw objPos : Vec3) : ℝ :=
  let carForward := carForwardRaw.normalize
  let toObject := objPos.sub carPos
  let distance := toObject.length
  let lightAngleCos := Real.cos HEADLIGHT_ANGLE
  let raw :=
    if lightsOn = true ∧ 0 < distance ∧ distance ≤ HEADLIGHT_RANGE then
      (let directionDot := toObject.normalize.dot carForward
       if lightAngleCos < directionDot then
         (max 0 ((1.3 - distance / HEADLIGHT_RANGE) *
           ((directionDot - lightAngleCos) / (1 - lightAngleCos)))) ^ ((0.7 : ℝ))
       else 0)
    else 0
  min 1 raw

/-- Line 234 of environment.ts: the visibility flag of the obstacle. -/
def objectVisible (lightsOn : Bool) (carPos carForwardRaw objPos : Vec3) : Prop :=
  0.02 < objectIntensity lightsOn carPos carForwardRaw objPos

theorem cosA_lt_one : Real.cos HEADLIGHT_ANGLE < 1 := by
  have hpi := Real.pi_pos
  have hA0 : 0 < HEADLIGHT_ANGLE := by
    rw [HEADLIGHT_ANGLE]
    positivity
  have hA2 : HEADLIGHT_ANGLE < 2 * Real.pi := by
    rw [HEADLIGHT_ANGLE, div_lt_iff₀ (by norm_num : (0 : ℝ) < 3.5)]
    nlinarith
  refine lt_of_le_of_ne (Real.cos_le_one _) fun h => ?_
  have h2 : HEADLIGHT_ANGLE = 0 := (Real.cos_eq_one_iff_of_lt_of_lt (by linarith) hA2).1 h
  exact absurd h2 hA0.ne'

theorem length_axis (a : ℝ) (ha : 0 ≤ a) : Vec3.length ⟨a, 0, 0⟩ = a := by
  unfold Vec3.length Vec3.lengthSq
  simp only [mul_zero, add_zero]
  exact Real.sqrt_mul_self ha

theorem normalize_axis (a : ℝ) (ha : 0 < a) : Vec3.normalize ⟨a, 0, 0⟩ = ⟨1, 0, 0⟩ := by
  unfold Vec3.normalize Vec3.smul
  rw [length_axis a ha.le, if_neg ha.ne', one_div]
  simp only
  rw [mul_inv_cancel₀ ha.ne']
  norm_num

/-- On the forward axis the direction dot is 1, the angle factor is 1, and
the intensity reduces to the clamped distance factor raised to 0.7. -/
theorem objectIntensity_on_axis (d : ℝ) (hd0 : 0 < d) (hdr : d ≤ 1000) :
    objectIntensity true ⟨0, 0, 0⟩ ⟨1, 0, 0⟩ ⟨d, 0, 0⟩ =
      min 1 ((max 0 (1.3 - d / 1000)) ^ ((0.7 : ℝ))) := by
  have hsub : Vec3.sub ⟨d, 0, 0⟩ ⟨0, 0, 0⟩ = ⟨d, 0, 0⟩ := by
    unfold Vec3.sub
    norm_num
  have hlen : Vec3.length ⟨d, 0, 0⟩ = d := length_axis d hd0.le
  have hfwd : Vec3.normalize ⟨1, 0, 0⟩ = ⟨1, 0, 0⟩ := normalize_axis 1 one_pos
  have hdir : Vec3.normalize ⟨d, 0, 0⟩ = ⟨1, 0, 0⟩ := normalize_axis d hd0
  have hdot : Vec3.dot ⟨1, 0, 0⟩ ⟨1, 0, 0⟩ = 1 := by
    unfold Vec3.dot
    norm_num
  have hne : (1 : ℝ) - Real.cos HEADLIGHT_ANGLE ≠ 0 := by
    have := cosA_lt_one
    intro h
    linarith
  simp only [objectIntensity, HEADLIGHT_RANGE, hsub, hlen, hfwd, hdir, hdot]
  rw [if_pos ⟨by trivial, hd0, hdr⟩, if_pos cosA_lt_one, div_self hne, mul_one]

/-- Claim C4 (counterexample): an obstacle exactly at distance
HEADLIGHT_RANGE on the forward axis, with headlights on, receives a
strictly positive intensity, not intensity 0: the range test of
updateObjectVisibility is the non-strict distance <= HEADLIGHT_RANGE. -/
theorem updateObjectVisibility_boundary_lit :
    Vec3.distanceTo ⟨1000, 0, 0⟩ ⟨0, 0, 0⟩ = HEADLIGHT_RANGE ∧
    0 < objectIntensity true ⟨0, 0, 0⟩ ⟨1, 0, 0⟩ ⟨1000, 0, 0⟩ := by
  constructor
  · unfold Vec3.distanceTo Vec3.sub HEADLIGHT_RANGE
    norm_num
    exact length_axis 1000 (by norm_num)
  · rw [objectIntensity_on_axis 1000 (by norm_num) (by norm_num)]
    refine lt_min one_pos ?_
    exact Real.rpow_pos_of_pos (by norm_num) _

/-- Claim C4 (amended): intensity 0 is forced when the distance strictly
exceeds HEADLIGHT_RANGE (or when the headlights are off); an obstacle
exactly at the range boundary is included, and on the forward axis with
headlights on it receives an intensity strictly above the 0.02 visibility
cutoff. -/
theorem updateObjectVisibility_range_amended :
    (∀ (lightsOn : Bool) (carPos carForwardRaw objPos : Vec3),
       HEADLIGHT_RANGE < (objPos.sub carPos).length →
       objectIntensity lightsOn carPos carForwardRaw objPos = 0) ∧
    (∀ carPos carForwardRaw objPos : Vec3,
       objectIntensity false carPos carForwardRaw objPos = 0) ∧
    0.02 < objectIntensity true ⟨0, 0, 0⟩ ⟨1, 0, 0⟩ ⟨1000, 0, 0⟩ := by
  refine ⟨fun lightsOn carPos carForwardRaw objPos h => ?_, fun carPos carForwardRaw objPos => ?_, ?_⟩
  · simp only [objectIntensity]
    rw [if_neg (by
      rintro ⟨-, -, hle⟩
      exact absurd hle (not_le.2 h))]
    norm_num
  · simp only [objectIntensity]
    rw [if_neg (by rintro ⟨h, -, -⟩; exact Bool.false_ne_true h)]
    norm_num
  · rw [objectIntensity_on_axis 1000 (by norm_num) (by norm_num)]
    have h03 : max (0 : ℝ) (1.3 - 1000 / 1000) = 0.3 := by norm_num
    rw [h03]
    refine lt_min (by norm_num) ?_
    have h1 : ((0.3 : ℝ)) ^ ((1 : ℝ)) ≤ ((0.3 : ℝ)) ^ ((0.7 : ℝ)) :=
      Real.rpow_le_rpow_of_exponent_ge (by norm_num) (by norm_num) (by norm_num)
    rw [Real.rpow_one] at h1
    linarith

/-- Witness for updateObjectVisibility_range_amended: an obstacle at
distance 2000 on the axis receives intensity 0. -/
theorem updateObjectVisibility_range_amended_witness :
    objectIntensity true ⟨0, 0, 0⟩ ⟨1, 0, 0⟩ ⟨2000, 0, 0⟩ = 0 :=
  updateObjectVisibility_range_amended.1 true ⟨0, 0, 0⟩ ⟨1, 0, 0⟩ ⟨2000, 0, 0⟩ (by
    have hsub : Vec3.sub ⟨2000, 0, 0⟩ ⟨0, 0, 0⟩ = ⟨2000, 0, 0⟩ := by
      unfold Vec3.sub
      norm_num
    rw [hsub, length_axis 2000 (by norm_num), HEADLIGHT_RANGE]
    norm_num)

/-- Claim C5: an on-axis obstacle at distance 500 with headlights on gets a
strictly positive intensity and is visible; with headlights off it gets
intensity exactly 0 and is invisible; every assigned intensity lies in
the closed interval from 0 to 1; and the visibility flag is exactly the
condition that the intensity exceeds 0.02. -/
theorem updateObjectVisibility_halfRange_spec :
    (0 < objectIntensity true ⟨0, 0, 0⟩ ⟨1, 0, 0⟩ ⟨500, 0, 0⟩ ∧
      objectVisible true ⟨0, 0, 0⟩ ⟨1, 0, 0⟩ ⟨500, 0, 0⟩) ∧
    (objectIntensity false ⟨0, 0, 0⟩ ⟨1, 0, 0⟩ ⟨500, 0, 0⟩ = 0 ∧
      ¬ objectVisible false ⟨0, 0, 0⟩ ⟨1, 0, 0⟩ ⟨500, 0, 0⟩) ∧
    (∀ (lightsOn : Bool) (carPos carForwardRaw objPos : Vec3),
       0 ≤ objectIntensity lightsOn carPos carForwardRaw objPos ∧
       objectIntensity lightsOn carPos carForwardRaw objPos ≤ 1) ∧
    (∀ (lightsOn : Bool) (carPos carForwardRaw objPos : Vec3),
       objectVisible lightsOn carPos carForwardRaw objPos ↔
         0.02 < objectIntensity lightsOn carPos carForwardRaw objPos) := by
  have hvis : 0.02 < objectIntensity true ⟨0, 0, 0⟩ ⟨1, 0, 0⟩ ⟨500, 0, 0⟩ := by
    rw [objectIntensity_on_axis 500 (by norm_num) (by norm_num)]
    have h08 : max (0 : ℝ) (1.3 - 500 / 1000) = 0.8 := by norm_num
    rw [h08]
    refine lt_min (by norm_num) ?_
    have h1 : ((0.8 : ℝ)) ^ ((1 : ℝ)) ≤ ((0.8 : ℝ)) ^ ((0.7 : ℝ)) :=
      Real.rpow_le_rpow_of_exponent_ge (by norm_num) (by norm_num) (by norm_num)
    rw [Real.rpow_one] at h1
    linarith
  have hoff : objectIntensity false ⟨0, 0, 0⟩ ⟨1, 0, 0⟩ ⟨500, 0, 0⟩ = 0 := by
    simp only [objectIntensity]
    rw [if_neg (by rintro ⟨h, -, -⟩; exact Bool.false_ne_true h)]
    norm_num
  refine ⟨⟨by linarith, hvis⟩, ⟨hoff, by rw [objectVisible, hoff]; norm_num⟩,
    fun lightsOn carPos carForwardRaw objPos => ⟨?_, min_le_left _ _⟩,
    fun lightsOn carPos carForwardRaw objPos => Iff.rfl⟩
  simp only [objectIntensity]
  refine le_min zero_le_one ?_
  split
  · split
    · exact Real.rpow_nonneg (le_max_left _ _) _
    · exact le_refl 0
  · exact le_refl 0

/-! ### Collision pass (checkCollisions, environment.ts lines 241-255)

The source iterates the obstacle list in reverse index order, and for each
obstacle within COLLISION_THRESHOLD of the car world position invokes the
hit callback once and splices the obstacle out of the list. Because a
splice at index i leaves all smaller indices untouched, the loop visits
every element exactly once, from the last to the first; it is embedded as
a right fold producing the surviving list and the number of removals
(equal to the number of callback invocations, counted back to front). -/

def checkCollisions (carPos : Vec3) (sceneBoxes : List Vec3) : List Vec3 × ℕ :=
  sceneBoxes.foldr
    (fun object acc =>
      if object.distanceTo carPos < COLLISION_THRESHOLD then (acc.1, acc.2 + 1)
      else (object :: acc.1, acc.2))
    ([], 0)

/-- Lines 425-428 of part_005: each hit callback adds one to the hit count
owned by the scheduler. -/
def GameEngine.registerHit (hitCount : ℕ) : ℕ := hitCount + 1

/-- Claim C3: one collision pass keeps exactly the obstacles at distance at
least COLLISION_THRESHOLD (removing exactly those strictly closer than 28),
reports one hit per removed obstacle, and iterating registerHit once per
removal raises the hit count by exactly the number of removed obstacles;
concretely an obstacle at distance 27.9 is removed with one hit and an
obstacle at distance 28.1 is untouched. -/
theorem checkCollisions_spec :
    (∀ (carPos : Vec3) (boxes : List Vec3),
      (checkCollisions carPos boxes).1 =
        boxes.filter (fun b => !(decide (b.distanceTo carPos < COLLISION_THRESHOLD))) ∧
      (checkCollisions carPos boxes).2 =
        (boxes.filter (fun b => decide (b.distanceTo carPos < COLLISION_THRESHOLD))).length) ∧
    (∀ hitCount n : ℕ, GameEngine.registerHit^[n] hitCount = hitCount + n) ∧
    checkCollisions ⟨0, 0, 0⟩ [⟨27.9, 0, 0⟩] = ([], 1) ∧
    checkCollisions ⟨0, 0, 0⟩ [⟨28.1, 0, 0⟩] = ([⟨28.1, 0, 0⟩], 0) := by
  have hdist : ∀ a : ℝ, 0 ≤ a → Vec3.distanceTo ⟨a, 0, 0⟩ ⟨0, 0, 0⟩ = a := by
    intro a ha
    unfold Vec3.distanceTo Vec3.sub
    norm_num
    exact length_axis a ha
  have hcons : ∀ (carPos b : Vec3) (rest : List Vec3),
      checkCollisions carPos (b :: rest) =
        if b.distanceTo carPos < COLLISION_THRESHOLD then
          ((checkCollisions carPos rest).1, (checkCollisions carPos rest).2 + 1)
        else (b :: (checkCollisions carPos rest).1, (checkCollisions carPos rest).2) := by
    intro carPos b rest
    simp only [checkCollisions, List.foldr_cons]
  refine ⟨fun carPos boxes => ?_, fun hitCount n => ?_, ?_, ?_⟩
  · induction boxes with
    | nil => exact ⟨rfl, rfl⟩
    | cons b rest ih =>
      obtain ⟨ih1, ih2⟩ := ih
      rw [hcons]
      by_cases h : b.distanceTo carPos < COLLISION_THRESHOLD
      · simp [h, List.filter_cons, ih1, ih2]
      · simp [h, List.filter_cons, ih1, ih2]
  · induction n with
    | zero => rfl
    | succ n ih =>
      rw [Function.iterate_succ_apply', ih, GameEngine.registerHit]
      omega
  · have h : Vec3.distanceTo ⟨27.9, 0, 0⟩ ⟨0, 0, 0⟩ < COLLISION_THRESHOLD := by
      rw [hdist 27.9 (by norm_num), COLLISION_THRESHOLD]
      norm_num
    simp only [checkCollisions, List.foldr_cons, List.foldr_nil, if_pos h]
  · have h : ¬ Vec3.distanceTo ⟨28.1, 0, 0⟩ ⟨0, 0, 0⟩ < COLLISION_THRESHOLD := by
      rw [hdist 28.1 (by norm_num), COLLISION_THRESHOLD]
      norm_num
    simp only [checkCollisions, List.foldr_cons, List.foldr_nil, if_neg h]

/-! ### Dust particle system (class DustParticleSystem, src/unnamed/part_006)

The parallel Float32Array slots are modelled as functions from slot index
to value; only the indices below maxParticles are ever touched, exactly as
in the source arrays. Math.random draws are modelled by a stream u of
values (one stream index per draw, consumed in source order); the state
carries the next stream index in the seed field. -/

structure DustState where
  positions : ℕ → Vec3
  velocities : ℕ → Vec3
  sizes : ℕ → ℝ
  startSizes : ℕ → ℝ
  endSizes : ℕ → ℝ
  ages : ℕ → ℝ
  lifetimes : ℕ → ℝ
  startAlphas : ℕ → ℝ
  alphas : ℕ → ℝ
  nextIndex : ℕ
  emitAccumulator : ℝ
  seed : ℕ

/-- THREE.MathUtils.randFloat(low, high) with r the Math.random draw. -/
def randFloat (r low high : ℝ) : ℝ := low + r * (high - low)

/-- THREE.MathUtils.randFloatSpread(range) with r the Math.random draw. -/
def randFloatSpread (r range : ℝ) : ℝ := range * (0.5 - r)

/-- THREE.MathUtils.clamp(value, low, high). -/
def clampR (value low high : ℝ) : ℝ := max low (min high value)

/-- THREE.MathUtils.lerp(x, y, t). -/
def lerpR (x y t : ℝ) : ℝ := (1 - t) * x + t * y

/-- The constructor zero-fills every array and starts with nextIndex 0 and
emitAccumulator 0. -/
def DustParticleSystem.initState : DustState :=
  { positions := fun _ => ⟨0, 0, 0⟩
    velocities := fun _ => ⟨0, 0, 0⟩
    sizes := fun _ => 0
    startSizes := fun _ => 0
    endSizes := fun _ => 0
    ages := fun _ => 0
    lifetimes := fun _ => 0
    startAlphas := fun _ => 0
    alphas := fun _ => 0
    nextIndex := 0
    emitAccumulator := 0
    seed := 0 }

/-- Lines 89-126 of part_006: spawn one particle at the ring-buffer cursor.
The two random draws guarded by side.lengthSq() > 0 are consumed only when
that guard holds, shifting the stream index of every later draw, exactly
as in the source. -/
def DustParticleSystem.activateParticle (u : ℕ → ℝ) (maxParticles : ℕ)
    (emitterPosition backward up : Vec3) (speed : ℝ) (s : DustState) : DustState :=
  let index := s.nextIndex
  let side := (Vec3.cross up backward).normalize
  let sideActive := 0 < side.lengthSq
  let k := s.seed
  let offBack := randFloat (u k) 3 8
  let offSide := if sideActive then randFloatSpread (u (k + 1)) 6 else 0
  let k1 := if sideActive then k + 2 else k + 1
  let offUp := randFloat (u k1) (-2.8) 1.0
  let sidewaysInfluence := if sideActive then randFloatSpread (u (k1 + 1)) 12 else 0
  let k2 := if sideActive then k1 + 2 else k1 + 1
  let pos :=
    ((emitterPosition.add (backward.smul offBack)).add (side.smul offSide)).add (up.smul offUp)
  let spawnSpeed := max 8 (speed * 55)
  let vel : Vec3 :=
    ⟨backward.x * spawnSpeed + side.x * sidewaysInfluence + randFloatSpread (u k2) 6,
      backward.y * spawnSpeed + side.y * sidewaysInfluence + randFloatSpread (u (k2 + 1)) 6,
      backward.z * spawnSpeed + randFloat (u (k2 + 2)) 10 26⟩
  let lifetime := randFloat (u (k2 + 3)) 0.7 1.5
  let startSize := randFloat (u (k2 + 4)) 16 32
  let endSize := startSize * randFloat (u (k2 + 5)) 0.35 0.6
  let startAlpha := randFloat (u (k2 + 6)) 0.55 0.85
  { s with
    positions := Function.update s.positions index pos
    velocities := Function.update s.velocities index vel
    ages := Function.update s.ages index 0
    lifetimes := Function.update s.lifetimes index lifetime
    startSizes := Function.update s.startSizes index startSize
    endSizes := Function.update s.endSizes index endSize
    sizes := Function.update s.sizes index startSize
    startAlphas := Function.update s.startAlphas index startAlpha
    alphas := Function.update s.alphas index startAlpha
    nextIndex := (s.nextIndex + 1) % maxParticles
    seed := k2 + 7 }

/-- The emission loop of lines 143-147: activate n particles in order. -/
def DustParticleSystem.spawnN (u : ℕ → ℝ) (maxParticles : ℕ)
    (emitterPosition backward up : Vec3) (speed : ℝ) : ℕ → DustState → DustState
  | 0, s => s
  | n + 1, s =>
    DustParticleSystem.spawnN u maxParticles emitterPosition backward up speed n
      (DustParticleSystem.activateParticle u maxParticles emitterPosition backward up speed s)

/-- The accumulator after the emission-budget step of lines 133-138. -/
def DustParticleSystem.accAfter (delta speed : ℝ) (s : DustState) : ℝ :=
  if 0.2 < |speed| then s.emitAccumulator + clampR (|speed| * 40) 12 70 * delta
  else s.emitAccumulator * 0.6

/-- Line 140: emitCount = min(maxParticles, floor(accumulator)). -/
def DustParticleSystem.emitCount (maxParticles : ℕ) (delta speed : ℝ) (s : DustState) : ℤ :=
  min (maxParticles : ℤ) ⌊DustParticleSystem.accAfter delta speed s⌋

/-- Lines 149-177 of part_006: the per-slot aging/integration loop. Each
iteration touches only slot i, so the loop is a pointwise map: a slot is
skipped when dead (lifetime at most 0), killed (lifetime, alpha and start
alpha zeroed) when its incremented age reaches its lifetime, and otherwise
integrated. -/
def DustParticleSystem.integrate (maxParticles : ℕ) (delta : ℝ) (up : Vec3)
    (s : DustState) : DustState :=
  let upInfluence := up.smul (14 * delta)
  let active := fun i => i < maxParticles ∧ 0 < s.lifetimes i
  let newAge := fun i => s.ages i + delta
  let dies := fun i => s.lifetimes i ≤ newAge i
  let t := fun i => clampR (newAge i / s.lifetimes i) 0 1
  { s with
    ages := fun i => if active i then newAge i else s.ages i
    lifetimes := fun i => if active i ∧ dies i then 0 else s.lifetimes i
    alphas := fun i =>
      if active i then
        (if dies i then 0 else s.startAlphas i * (1 - t i) * (1 - t i))
      else s.alphas i
    startAlphas := fun i => if active i ∧ dies i then 0 else s.startAlphas i
    positions := fun i =>
      if active i ∧ ¬ dies i then (s.positions i).add ((s.velocities i).smul delta)
      else s.positions i
    velocities := fun i =>
      if active i ∧ ¬ dies i then
        ⟨(s.velocities i).x * 0.9 + upInfluence.x,
          (s.velocities i).y * 0.9 + upInfluence.y,
          (s.velocities i).z * 0.88 + upInfluence.z + 6 * delta⟩
      else s.velocities i
    sizes := fun i =>
      if active i ∧ ¬ dies i then lerpR (s.startSizes i) (s.endSizes i) (t i)
      else s.sizes i }

/-- Lines 128-182 of part_006: one call of DustParticleSystem.update. In
the real-number model Number.isFinite always holds, so the early return
fires exactly for delta at most 0. -/
def DustParticleSystem.update (u : ℕ → ℝ) (maxParticles : ℕ) (delta : ℝ)
    (emitterPosition backward up : Vec3) (speed : ℝ) (s : DustState) : DustState :=
  if delta ≤ 0 then s
  else
    let acc := DustParticleSystem.accAfter delta speed s
    let emitN := DustParticleSystem.emitCount maxParticles delta speed s
    let s1 := { s with emitAccumulator := acc - emitN }
    DustParticleSystem.integrate maxParticles delta up
      (DustParticleSystem.spawnN u maxParticles emitterPosition backward up
        (max |speed| 0.2) emitN.toNat s1)

/-- Claim C6: DustParticleSystem.update with non-positive delta returns
before touching any state: particle arrays, accumulator and cursor are all
exactly unchanged. -/
theorem dust_update_nonpos_delta_noop (u : ℕ → ℝ) (maxParticles : ℕ) (delta : ℝ)
    (emitterPosition backward up : Vec3) (speed : ℝ) (s : DustState) (h : delta ≤ 0) :
    DustParticleSystem.update u maxParticles delta emitterPosition backward up speed s = s := by
  rw [DustParticleSystem.update, if_pos h]

/-- Witness for dust_update_nonpos_delta_noop at delta 0 on the initial
state. -/
theorem dust_update_nonpos_delta_noop_witness :
    DustParticleSystem.update (fun _ => 0) 240 0 ⟨0, 0, 0⟩ ⟨0, 0, 0⟩ ⟨0, 0, 0⟩ 0
      DustParticleSystem.initState = DustParticleSystem.initState :=
  dust_update_nonpos_delta_noop (fun _ => 0) 240 0 ⟨0, 0, 0⟩ ⟨0, 0, 0⟩ ⟨0, 0, 0⟩ 0
    DustParticleSystem.initState le_rfl

/-! Slot-level helper lemmas for the dust system. -/

theorem activateParticle_ne (u : ℕ → ℝ) (maxParticles : ℕ)
    (emitterPosition backward up : Vec3) (speed : ℝ) (s : DustState) {i : ℕ}
    (h : i ≠ s.nextIndex) :
    (DustParticleSystem.activateParticle u maxParticles emitterPosition backward up speed
        s).ages i = s.ages i ∧
    (DustParticleSystem.activateParticle u maxParticles emitterPosition backward up speed
        s).lifetimes i = s.lifetimes i ∧
    (DustParticleSystem.activateParticle u maxParticles emitterPosition backward up speed
        s).alphas i = s.alphas i := by
  refine ⟨?_, ?_, ?_⟩ <;>
    simp [DustParticleSystem.activateParticle, Function.update_noteq h]

theorem activateParticle_nextIndex (u : ℕ → ℝ) (maxParticles : ℕ)
    (emitterPosition backward up : Vec3) (speed : ℝ) (s : DustState) :
    (DustParticleSystem.activateParticle u maxParticles emitterPosition backward up speed
        s).nextIndex = (s.nextIndex + 1) % maxParticles := by
  simp [DustParticleSystem.activateParticle]

/-- A spawn burst leaves a slot untouched when no target index of the
burst is that slot. -/
theorem spawnN_preserves (u : ℕ → ℝ) (maxParticles : ℕ)
    (emitterPosition backward up : Vec3) (speed : ℝ) {i : ℕ} :
    ∀ (n : ℕ) (s : DustState), s.nextIndex < maxParticles →
      (∀ j, j < n → (s.nextIndex + j) % maxParticles ≠ i) →
      (DustParticleSystem.spawnN u maxParticles emitterPosition backward up speed n
          s).ages i = s.ages i ∧
      (DustParticleSystem.spawnN u maxParticles emitterPosition backward up speed n
          s).lifetimes i = s.lifetimes i ∧
      (DustParticleSystem.spawnN u maxParticles emitterPosition backward up speed n
          s).alphas i = s.alphas i := by
  intro n
  induction n with
  | zero => exact fun s _ _ => ⟨rfl, rfl, rfl⟩
  | succ n ih =>
    intro s hnext ht
    have hmp : 0 < maxParticles := lt_of_le_of_lt (Nat.zero_le _) hnext
    have hne : i ≠ s.nextIndex := by
      intro he
      exact ht 0 (Nat.succ_pos n) (by rw [Nat.add_zero, Nat.mod_eq_of_lt hnext, he])
    have hact := activateParticle_ne u maxParticles emitterPosition backward up speed s hne
    have hnext' : (DustParticleSystem.activateParticle u maxParticles emitterPosition
        backward up speed s).nextIndex < maxParticles := by
      rw [activateParticle_nextIndex]
      exact Nat.mod_lt _ hmp
    have ht' : ∀ j, j < n →
        ((DustParticleSystem.activateParticle u maxParticles emitterPosition backward up
            speed s).nextIndex + j) % maxParticles ≠ i := by
      intro j hj
      rw [activateParticle_nextIndex, Nat.mod_add_mod]
      have : s.nextIndex + 1 + j = s.nextIndex + (j + 1) := by omega
      rw [this]
      exact ht (j + 1) (by omega)
    have hrec := ih (DustParticleSystem.activateParticle u maxParticles emitterPosition
      backward up speed s) hnext' ht'
    rw [DustParticleSystem.spawnN]
    exact ⟨hrec.1.trans hact.1, hrec.2.1.trans hact.2.1, hrec.2.2.trans hact.2.2⟩

theorem spawnN_nextIndex (u : ℕ → ℝ) (maxParticles : ℕ)
    (emitterPosition backward up : Vec3) (speed : ℝ) :
    ∀ (n : ℕ) (s : DustState), s.nextIndex < maxParticles →
      (DustParticleSystem.spawnN u maxParticles emitterPosition backward up speed n
          s).nextIndex < maxParticles := by
  intro n
  induction n with
  | zero => exact fun s h => h
  | succ n ih =>
    intro s hnext
    have hmp : 0 < maxParticles := lt_of_le_of_lt (Nat.zero_le _) hnext
    rw [DustParticleSystem.spawnN]
    exact ih _ (by rw [activateParticle_nextIndex]; exact Nat.mod_lt _ hmp)

/-- On each slot a spawn burst either leaves age and lifetime unchanged or
resets the age to 0 (a fresh spawn). -/
theorem spawnN_slot_cases (u : ℕ → ℝ) (maxParticles : ℕ)
    (emitterPosition backward up : Vec3) (speed : ℝ) :
    ∀ (n : ℕ) (s : DustState) (i : ℕ),
      ((DustParticleSystem.spawnN u maxParticles emitterPosition backward up speed n
          s).ages i = s.ages i ∧
        (DustParticleSystem.spawnN u maxParticles emitterPosition backward up speed n
          s).lifetimes i = s.lifetimes i) ∨
      (DustParticleSystem.spawnN u maxParticles emitterPosition backward up speed n
          s).ages i = 0 := by
  intro n
  induction n with
  | zero => exact fun s i => Or.inl ⟨rfl, rfl⟩
  | succ n ih =>
    intro s i
    rw [DustParticleSystem.spawnN]
    rcases ih (DustParticleSystem.activateParticle u maxParticles emitterPosition backward
      up speed s) i with ⟨h1, h2⟩ | h
    · by_cases he : i = s.nextIndex
      · subst he
        refine Or.inr ?_
        rw [h1]
        simp [DustParticleSystem.activateParticle]
      · have hact := activateParticle_ne u maxParticles emitterPosition backward up speed s he
        exact Or.inl ⟨h1.trans hact.1, h2.trans hact.2.1⟩
    · exact Or.inr h

theorem integrate_slot_dead (maxParticles : ℕ) (delta : ℝ) (up : Vec3) (s : DustState)
    {i : ℕ} (h : ¬ 0 < s.lifetimes i) :
    (DustParticleSystem.integrate maxParticles delta up s).lifetimes i = s.lifetimes i ∧
    (DustParticleSystem.integrate maxParticles delta up s).alphas i = s.alphas i ∧
    (DustParticleSystem.integrate maxParticles delta up s).ages i = s.ages i := by
  have hc : ¬ (i < maxParticles ∧ 0 < s.lifetimes i) := fun hc => h hc.2
  refine ⟨?_, ?_, ?_⟩ <;> simp only [DustParticleSystem.integrate]
  · rw [if_neg (fun h2 => hc h2.1)]
  · rw [if_neg hc]
  · rw [if_neg hc]

theorem integrate_slot_kill (maxParticles : ℕ) (delta : ℝ) (up : Vec3) (s : DustState)
    {i : ℕ} (hm : i < maxParticles) (hl : 0 < s.lifetimes i)
    (hd : s.lifetimes i ≤ s.ages i + delta) :
    (DustParticleSystem.integrate maxParticles delta up s).lifetimes i = 0 ∧
    (DustParticleSystem.integrate maxParticles delta up s).alphas i = 0 := by
  constructor <;> simp only [DustParticleSystem.integrate]
  · rw [if_pos ⟨⟨hm, hl⟩, hd⟩]
  · rw [if_pos ⟨hm, hl⟩, if_pos hd]

theorem integrate_slot_live (maxParticles : ℕ) (delta : ℝ) (up : Vec3) (s : DustState)
    {i : ℕ} (hm : i < maxParticles) (hl : 0 < s.lifetimes i)
    (hd : s.ages i + delta < s.lifetimes i) :
    (DustParticleSystem.integrate maxParticles delta up s).lifetimes i = s.lifetimes i ∧
    (DustParticleSystem.integrate maxParticles delta up s).ages i = s.ages i + delta ∧
    (DustParticleSystem.integrate maxParticles delta up s).alphas i =
      s.startAlphas i * (1 - clampR ((s.ages i + delta) / s.lifetimes i) 0 1) *
        (1 - clampR ((s.ages i + delta) / s.lifetimes i) 0 1) := by
  refine ⟨?_, ?_, ?_⟩ <;> simp only [DustParticleSystem.integrate]
  · rw [if_neg (by rintro ⟨-, hk⟩; exact absurd hd (not_lt.2 hk))]
  · rw [if_pos ⟨hm, hl⟩]
  · rw [if_pos ⟨hm, hl⟩, if_neg (not_le.2 hd)]

theorem integrate_nextIndex (maxParticles : ℕ) (delta : ℝ) (up : Vec3) (s : DustState) :
    (DustParticleSystem.integrate maxParticles delta up s).nextIndex = s.nextIndex := rfl

/-! A run of the dust system over a list of per-frame inputs. -/

structure DustInput where
  delta : ℝ
  emitterPosition : Vec3
  backward : Vec3
  up : Vec3
  speed : ℝ

def dustStep (u : ℕ → ℝ) (maxParticles : ℕ) (inp : DustInput) (s : DustState) : DustState :=
  DustParticleSystem.update u maxParticles inp.delta inp.emitterPosition inp.backward
    inp.up inp.speed s

def runDust (u : ℕ → ℝ) (maxParticles : ℕ) : List DustInput → DustState → DustState
  | [], s => s
  | inp :: rest, s => runDust u maxParticles rest (dustStep u maxParticles inp s)

/-- The sum of the positive parts of the deltas of a run. -/
def posSum : List DustInput → ℝ
  | [] => 0
  | inp :: rest => max inp.delta 0 + posSum rest

/-- The update for input inp from state s spawns a particle into slot i:
the delta is positive and some index of the emission burst (which starts at
the ring cursor) reaches the slot. -/
def SpawnsSlot (maxParticles : ℕ) (inp : DustInput) (s : DustState) (i : ℕ) : Prop :=
  0 < inp.delta ∧
    ∃ j, j < (DustParticleSystem.emitCount maxParticles inp.delta inp.speed s).toNat ∧
      (s.nextIndex + j) % maxParticles = i

/-- No update of the run spawns into slot i (evaluated along the actual
intermediate states of the run). -/
def NoSpawnRun (u : ℕ → ℝ) (maxParticles i : ℕ) : List DustInput → DustState → Prop
  | [], _ => True
  | inp :: rest, s =>
    ¬ SpawnsSlot maxParticles inp s i ∧
      NoSpawnRun u maxParticles i rest (dustStep u maxParticles inp s)

theorem dustStep_nonpos (u : ℕ → ℝ) (maxParticles : ℕ) (inp : DustInput) (s : DustState)
    (h : inp.delta ≤ 0) : dustStep u maxParticles inp s = s := by
  rw [dustStep, DustParticleSystem.update, if_pos h]

/-- Unfolding of one positive-delta update into its three phases. -/
theorem dustStep_pos (u : ℕ → ℝ) (maxParticles : ℕ) (inp : DustInput) (s : DustState)
    (h : 0 < inp.delta) :
    dustStep u maxParticles inp s =
      DustParticleSystem.integrate maxParticles inp.delta inp.up
        (DustParticleSystem.spawnN u maxParticles inp.emitterPosition inp.backward inp.up
          (max |inp.speed| 0.2)
          (DustParticleSystem.emitCount maxParticles inp.delta inp.speed s).toNat
          { s with emitAccumulator :=
              DustParticleSystem.accAfter inp.delta inp.speed s -
                DustParticleSystem.emitCount maxParticles inp.delta inp.speed s }) := by
  rw [dustStep, DustParticleSystem.update, if_neg (not_le.2 h)]

theorem dustStep_nextIndex (u : ℕ → ℝ) (maxParticles : ℕ) (inp : DustInput) (s : DustState)
    (h : s.nextIndex < maxParticles) :
    (dustStep u maxParticles inp s).nextIndex < maxParticles := by
  rcases le_or_lt inp.delta 0 with hd | hd
  · rw [dustStep_nonpos u maxParticles inp s hd]
    exact h
  · rw [dustStep_pos u maxParticles inp s hd, integrate_nextIndex]
    exact spawnN_nextIndex u maxParticles inp.emitterPosition inp.backward inp.up
      (max |inp.speed| 0.2) _ _ h

/-- One positive-delta update on a slot it does not spawn into: a dead slot
stays dead with its alpha unchanged; an active slot is killed (lifetime and
alpha zeroed) when its age reaches its lifetime and otherwise just ages by
delta. -/
theorem dustStep_slot (u : ℕ → ℝ) (maxParticles : ℕ) (inp : DustInput) (s : DustState)
    {i : ℕ} (hi : i < maxParticles) (hnext : s.nextIndex < maxParticles)
    (hd : 0 < inp.delta) (hns : ¬ SpawnsSlot maxParticles inp s i) :
    (¬ 0 < s.lifetimes i →
      (dustStep u maxParticles inp s).lifetimes i = s.lifetimes i ∧
      (dustStep u maxParticles inp s).alphas i = s.alphas i) ∧
    (0 < s.lifetimes i → s.lifetimes i ≤ s.ages i + inp.delta →
      (dustStep u maxParticles inp s).lifetimes i = 0 ∧
      (dustStep u maxParticles inp s).alphas i = 0) ∧
    (0 < s.lifetimes i → s.ages i + inp.delta < s.lifetimes i →
      (dustStep u maxParticles inp s).lifetimes i = s.lifetimes i ∧
      (dustStep u maxParticles inp s).ages i = s.ages i + inp.delta) := by
  have hns' : ∀ j, j < (DustParticleSystem.emitCount maxParticles inp.delta inp.speed
      s).toNat → (s.nextIndex + j) % maxParticles ≠ i := by
    intro j hj he
    exact hns ⟨hd, j, hj, he⟩
  rw [dustStep_pos u maxParticles inp s hd]
  obtain ⟨hages, hlife, halpha⟩ :=
    spawnN_preserves u maxParticles inp.emitterPosition inp.backward inp.up
      (max |inp.speed| 0.2)
      (DustParticleSystem.emitCount maxParticles inp.delta inp.speed s).toNat
      ({ s with emitAccumulator := (DustParticleSystem.accAfter inp.delta inp.speed s - DustParticleSystem.emitCount maxParticles inp.delta inp.speed s) })
      hnext hns'
  refine ⟨fun hl => ?_, fun hl hk => ?_, fun hl hk => ?_⟩
  · have hdead := integrate_slot_dead maxParticles inp.delta inp.up _
      (fun hc => hl (hlife ▸ hc))
    exact ⟨hdead.1.trans hlife, hdead.2.1.trans halpha⟩
  · have hkill := integrate_slot_kill maxParticles inp.delta inp.up _ hi
      (hlife.symm ▸ hl) (by rw [hlife, hages]; exact hk)
    exact hkill
  · have hlive := integrate_slot_live maxParticles inp.delta inp.up _ hi
      (hlife.symm ▸ hl) (by rw [hlife, hages]; exact hk)
    exact ⟨hlive.1.trans hlife, by rw [hlive.2.1, hages]⟩

/-- Core death lemma: along a run that never spawns into slot i, a slot
that is dead with zero alpha stays that way, and an active slot whose
remaining lifetime is covered by the positive deltas of the run ends dead
with zero alpha. -/
theorem runDust_kills (u : ℕ → ℝ) (maxParticles i : ℕ) :
    ∀ (inputs : List DustInput) (s : DustState), i < maxParticles →
      s.nextIndex < maxParticles → NoSpawnRun u maxParticles i inputs s →
      ((s.lifetimes i = 0 ∧ s.alphas i = 0) ∨
        (0 < s.lifetimes i ∧ 0 ≤ s.ages i ∧ s.ages i < s.lifetimes i ∧
          s.lifetimes i - s.ages i ≤ posSum inputs)) →
      (runDust u maxParticles inputs s).lifetimes i = 0 ∧
        (runDust u maxParticles inputs s).alphas i = 0 := by
  intro inputs
  induction inputs with
  | nil =>
    intro s _ _ _ hpre
    rcases hpre with h | ⟨h1, h2, h3, h4⟩
    · exact h
    · rw [posSum] at h4
      linarith
  | cons inp rest ih =>
    intro s hi hnext hns hpre
    obtain ⟨hns1, hns2⟩ := hns
    rw [runDust]
    have hnext' := dustStep_nextIndex u maxParticles inp s hnext
    rcases le_or_lt inp.delta 0 with hd | hd
    · have heq := dustStep_nonpos u maxParticles inp s hd
      refine ih (dustStep u maxParticles inp s) hi hnext' hns2 ?_
      rw [heq]
      rcases hpre with h | ⟨h1, h2, h3, h4⟩
      · exact Or.inl h
      · refine Or.inr ⟨h1, h2, h3, ?_⟩
        rw [posSum, max_eq_right hd] at h4
        linarith
    · have hslot := dustStep_slot u maxParticles inp s hi hnext hd hns1
      rcases hpre with ⟨h1, h2⟩ | ⟨h1, h2, h3, h4⟩
      · obtain ⟨e1, e2⟩ := hslot.1 (by rw [h1]; exact lt_irrefl 0)
        exact ih _ hi hnext' hns2 (Or.inl ⟨e1.trans h1, e2.trans h2⟩)
      · by_cases hk : s.lifetimes i ≤ s.ages i + inp.delta
        · obtain ⟨e1, e2⟩ := hslot.2.1 h1 hk
          exact ih _ hi hnext' hns2 (Or.inl ⟨e1, e2⟩)
        · obtain ⟨e1, e2⟩ := hslot.2.2 h1 (not_le.1 hk)
          rw [posSum, max_eq_left hd.le] at h4
          refine ih _ hi hnext' hns2 (Or.inr ⟨?_, ?_, ?_, ?_⟩)
          · rw [e1]
            exact h1
          · rw [e2]
            linarith
          · rw [e1, e2]
            exact not_le.1 hk
          · rw [e1, e2]
            linarith

/-- The per-slot age/lifetime invariant of the dust arrays. -/
def DustInv (maxParticles : ℕ) (s : DustState) : Prop :=
  ∀ i, i < maxParticles → 0 < s.lifetimes i → 0 ≤ s.ages i ∧ s.ages i ≤ s.lifetimes i

theorem dustInv_init (maxParticles : ℕ) : DustInv maxParticles DustParticleSystem.initState :=
  fun _ _ hl => absurd hl (lt_irrefl 0)

theorem integrate_inv (maxParticles : ℕ) (delta : ℝ) (up : Vec3) (s2 : DustState)
    (hdelta : 0 < delta)
    (hpre : ∀ i, i < maxParticles → 0 < s2.lifetimes i → 0 ≤ s2.ages i) :
    DustInv maxParticles (DustParticleSystem.integrate maxParticles delta up s2) := by
  intro i hi hl
  by_cases hact : 0 < s2.lifetimes i
  · by_cases hk : s2.lifetimes i ≤ s2.ages i + delta
    · have := (integrate_slot_kill maxParticles delta up s2 hi hact hk).1
      rw [this] at hl
      exact absurd hl (lt_irrefl 0)
    · have hlive := integrate_slot_live maxParticles delta up s2 hi hact (not_le.1 hk)
      rw [hlive.1, hlive.2.1]
      have h0 := hpre i hi hact
      exact ⟨by linarith, by linarith [not_le.1 hk]⟩
  · have := (integrate_slot_dead maxParticles delta up s2 hact).1
    rw [this] at hl
    exact absurd hl hact

theorem dustInv_step (u : ℕ → ℝ) (maxParticles : ℕ) (inp : DustInput) (s : DustState)
    (h : DustInv maxParticles s) : DustInv maxParticles (dustStep u maxParticles inp s) := by
  rcases le_or_lt inp.delta 0 with hd | hd
  · rw [dustStep_nonpos u maxParticles inp s hd]
    exact h
  · rw [dustStep_pos u maxParticles inp s hd]
    refine integrate_inv maxParticles inp.delta inp.up _ hd ?_
    intro i hi hl
    rcases spawnN_slot_cases u maxParticles inp.emitterPosition inp.backward inp.up
      (max |inp.speed| 0.2)
      (DustParticleSystem.emitCount maxParticles inp.delta inp.speed s).toNat
      ({ s with emitAccumulator := (DustParticleSystem.accAfter inp.delta inp.speed s - DustParticleSystem.emitCount maxParticles inp.delta inp.speed s) })
      i with ⟨ha, hlf⟩ | ha
    · rw [ha]
      rw [hlf] at hl
      exact (h i hi hl).1
    · rw [ha]

theorem dustInv_run (u : ℕ → ℝ) (maxParticles : ℕ) :
    ∀ (inputs : List DustInput) (s : DustState), DustInv maxParticles s →
      DustInv maxParticles (runDust u maxParticles inputs s) := by
  intro inputs
  induction inputs with
  | nil => exact fun s h => h
  | cons inp rest ih =>
    intro s h
    rw [runDust]
    exact ih _ (dustInv_step u maxParticles inp s h)

/-- Claim C7 (amended): a particle spawned at age 0 with positive lifetime
becomes inactive (lifetime and alpha reset to 0) once the positive deltas
of the subsequent updates sum to at least its lifetime, provided no
emission burst of the run overwrites its ring-buffer slot; without that
proviso the slot can be re-spawned and remain active (see the
counterexample). Moreover, after any run from the freshly constructed
system, every active slot satisfies 0 ≤ age ≤ lifetime. -/
theorem dust_lifetime_amended :
    (∀ (u : ℕ → ℝ) (maxParticles i : ℕ) (inputs : List DustInput) (s : DustState),
      i < maxParticles → s.nextIndex < maxParticles → 0 < s.lifetimes i →
      s.ages i = 0 → s.lifetimes i ≤ posSum inputs →
      NoSpawnRun u maxParticles i inputs s →
      (runDust u maxParticles inputs s).lifetimes i = 0 ∧
        (runDust u maxParticles inputs s).alphas i = 0) ∧
    (∀ (u : ℕ → ℝ) (maxParticles : ℕ) (inputs : List DustInput),
      DustInv maxParticles (runDust u maxParticles inputs DustParticleSystem.initState)) := by
  constructor
  · intro u maxParticles i inputs s hi hnext hl ha hsum hns
    refine runDust_kills u maxParticles i inputs s hi hnext hns
      (Or.inr ⟨hl, le_of_eq ha.symm, ?_, ?_⟩)
    · rw [ha]
      exact hl
    · rw [ha, sub_zero]
      exact hsum
  · intro u maxParticles inputs
    exact dustInv_run u maxParticles inputs DustParticleSystem.initState
      (dustInv_init maxParticles)

/-- The state used by the witness of dust_lifetime_amended: one slot
holding a live particle of lifetime 1 at age 0. -/
def dustWitnessState : DustState :=
  { DustParticleSystem.initState with lifetimes := fun i => if i = 0 then 1 else 0 }

/-- The input used by the witness of dust_lifetime_amended: one frame of
1.2 seconds at speed 0 (no emission). -/
def dustWitnessInput : DustInput := ⟨1.2, ⟨0, 0, 0⟩, ⟨0, 0, 0⟩, ⟨0, 0, 1⟩, 0⟩

theorem dust_lifetime_amended_witness :
    (runDust (fun _ => 0) 1 [dustWitnessInput] dustWitnessState).lifetimes 0 = 0 ∧
    (runDust (fun _ => 0) 1 [dustWitnessInput] dustWitnessState).alphas 0 = 0 := by
  have hemit : DustParticleSystem.emitCount 1 dustWitnessInput.delta dustWitnessInput.speed
      dustWitnessState = 0 := by
    rw [DustParticleSystem.emitCount, DustParticleSystem.accAfter]
    rw [if_neg (by norm_num [dustWitnessInput])]
    have h0 : dustWitnessState.emitAccumulator * 0.6 = 0 := by
      norm_num [dustWitnessState, DustParticleSystem.initState]
    rw [h0, Int.floor_zero]
    decide
  refine dust_lifetime_amended.1 (fun _ => 0) 1 0 [dustWitnessInput] dustWitnessState
    (by norm_num) (by norm_num [dustWitnessState, DustParticleSystem.initState])
    (by norm_num [dustWitnessState]) (by norm_num [dustWitnessState, DustParticleSystem.initState])
    (by norm_num [posSum, dustWitnessInput, dustWitnessState]) ?_
  refine ⟨?_, trivial⟩
  rintro ⟨-, j, hj, -⟩
  rw [hemit] at hj
  exact absurd hj (by norm_num)

/-! Concrete overwrite run refuting the unconditional reading of the dust
lifetime claim: capacity 1, a constant random stream that yields lifetime
exactly 1.0 on every spawn, two updates of 0.6 seconds each at speed 1. -/

/-- Constant Math.random stream: every draw is 3/8, so every spawned
particle has lifetime 0.7 + (3/8) * 0.8 = 1.0. -/
def dustCexStream : ℕ → ℝ := fun _ => 3 / 8

/-- One frame of 0.6 seconds at speed 1 (heavy emission). -/
def dustCexInput : DustInput := ⟨3 / 5, ⟨0, 0, 0⟩, ⟨-1, 0, 0⟩, ⟨0, 0, 1⟩, 1⟩

theorem integrate_emitAccumulator (maxParticles : ℕ) (delta : ℝ) (up : Vec3)
    (s : DustState) :
    (DustParticleSystem.integrate maxParticles delta up s).emitAccumulator =
      s.emitAccumulator := rfl

theorem activateParticle_emitAccumulator (u : ℕ → ℝ) (maxParticles : ℕ)
    (emitterPosition backward up : Vec3) (speed : ℝ) (s : DustState) :
    (DustParticleSystem.activateParticle u maxParticles emitterPosition backward up speed
        s).emitAccumulator = s.emitAccumulator := rfl

theorem dust_cex_step (s : DustState) (hn : s.nextIndex = 0) (m : ℕ)
    (hacc : s.emitAccumulator = (m : ℝ)) :
    (dustStep dustCexStream 1 dustCexInput s).lifetimes 0 = 1 ∧
    (dustStep dustCexStream 1 dustCexInput s).ages 0 = 3 / 5 ∧
    (dustStep dustCexStream 1 dustCexInput s).alphas 0 = 53 / 500 ∧
    (dustStep dustCexStream 1 dustCexInput s).nextIndex = 0 ∧
    (dustStep dustCexStream 1 dustCexInput s).emitAccumulator = (m : ℝ) + 23 := by
  have hd : (0 : ℝ) < dustCexInput.delta := by norm_num [dustCexInput]
  have haccA : DustParticleSystem.accAfter dustCexInput.delta dustCexInput.speed s =
      (m : ℝ) + 24 := by
    rw [DustParticleSystem.accAfter,
      if_pos (by norm_num [dustCexInput] : (0.2 : ℝ) < |dustCexInput.speed|), hacc]
    norm_num [dustCexInput, clampR]
  have hemit : DustParticleSystem.emitCount 1 dustCexInput.delta dustCexInput.speed s = 1 := by
    rw [DustParticleSystem.emitCount, haccA]
    have hcast : ((m : ℝ) + 24) = (((m : ℤ) + 24 : ℤ) : ℝ) := by push_cast; ring
    rw [hcast, Int.floor_intCast]
    have h1 : ((1 : ℕ) : ℤ) = 1 := rfl
    rw [h1, min_eq_left (by omega : (1 : ℤ) ≤ (m : ℤ) + 24)]
  rw [dustStep_pos dustCexStream 1 dustCexInput s hd, hemit, haccA]
  have htn : (1 : ℤ).toNat = 1 := rfl
  rw [htn]
  have hone : ∀ s0 : DustState,
      DustParticleSystem.spawnN dustCexStream 1 dustCexInput.emitterPosition
        dustCexInput.backward dustCexInput.up (max |dustCexInput.speed| 0.2) 1 s0 =
      DustParticleSystem.activateParticle dustCexStream 1 dustCexInput.emitterPosition
        dustCexInput.backward dustCexInput.up (max |dustCexInput.speed| 0.2) s0 :=
    fun s0 => rfl
  rw [hone]
  have hidx : ({ s with emitAccumulator := ((m : ℝ) + 24 - (1 : ℤ)) } : DustState).nextIndex
      = 0 := hn
  set sAct := DustParticleSystem.activateParticle dustCexStream 1 dustCexInput.emitterPosition
    dustCexInput.backward dustCexInput.up (max |dustCexInput.speed| 0.2)
    ({ s with emitAccumulator := ((m : ℝ) + 24 - (1 : ℤ)) }) with hsAct
  have hlife : sAct.lifetimes 0 = 1 := by
    rw [hsAct]
    simp only [DustParticleSystem.activateParticle, hn]
    rw [Function.update_same]
    norm_num [dustCexStream, randFloat]
  have hages : sAct.ages 0 = 0 := by
    rw [hsAct]
    simp only [DustParticleSystem.activateParticle, hn]
    rw [Function.update_same]
  have hsa : sAct.startAlphas 0 = 53 / 80 := by
    rw [hsAct]
    simp only [DustParticleSystem.activateParticle, hn]
    rw [Function.update_same]
    norm_num [dustCexStream, randFloat]
  have hni : sAct.nextIndex = 0 := by
    rw [hsAct, activateParticle_nextIndex]
    exact Nat.mod_one _
  have hea : sAct.emitAccumulator = (m : ℝ) + 23 := by
    rw [hsAct, activateParticle_emitAccumulator]
    push_cast
    ring
  have hlive := integrate_slot_live 1 dustCexInput.delta dustCexInput.up sAct
    (i := 0) Nat.one_pos (by rw [hlife]; norm_num)
    (by rw [hlife, hages]; norm_num [dustCexInput])
  refine ⟨?_, ?_, ?_, ?_, ?_⟩
  · rw [hlive.1, hlife]
  · rw [hlive.2.1, hages, dustCexInput]
    norm_num
  · rw [hlive.2.2, hsa, hages, hlife]
    norm_num [dustCexInput, clampR]
  · rw [integrate_nextIndex, hni]
  · rw [integrate_emitAccumulator, hea]

/-- Claim C7 (counterexample): with capacity 1 and the constant stream,
the first 0.6 second update spawns a particle with lifetime exactly 1.0
(at age 0, aged to 0.6 within the call); after a second 0.6 second update
the positive deltas sum to 1.2, at least the lifetime 1.0, yet the slot is
not inactive: the emission of the second call overwrote the particle, so
the slot holds lifetime 1 and alpha 53/500, neither reset to 0. -/
theorem dust_slot_overwrite_cex :
    posSum [dustCexInput, dustCexInput] = 6 / 5 ∧ (1 : ℝ) ≤ 6 / 5 ∧
    (runDust dustCexStream 1 [dustCexInput] DustParticleSystem.initState).lifetimes 0 = 1 ∧
    (runDust dustCexStream 1 [dustCexInput] DustParticleSystem.initState).ages 0 = 3 / 5 ∧
    (runDust dustCexStream 1 [dustCexInput, dustCexInput]
        DustParticleSystem.initState).lifetimes 0 = 1 ∧
    (runDust dustCexStream 1 [dustCexInput, dustCexInput]
        DustParticleSystem.initState).alphas 0 = 53 / 500 := by
  have h1 := dust_cex_step DustParticleSystem.initState rfl 0
    (by norm_num [DustParticleSystem.initState])
  have h2 := dust_cex_step (dustStep dustCexStream 1 dustCexInput
      DustParticleSystem.initState) h1.2.2.2.1 23
    (by rw [h1.2.2.2.2]; norm_num)
  refine ⟨by norm_num [posSum, dustCexInput], by norm_num, ?_, ?_, ?_, ?_⟩
  · rw [runDust, runDust]
    exact h1.1
  · rw [runDust, runDust]
    exact h1.2.1
  · rw [runDust, runDust, runDust]
    exact h2.1
  · rw [runDust, runDust, runDust]
    exact h2.2.2.1

/-! ### Frame scheduler lifecycle (class GameEngine, src/unnamed/part_005)

The lifecycle-relevant state: the pending animation frame handle (stop
cancels it, lines 249-254), the disposed flag guarding dispose (lines
256-258), and one release counter per owned GPU resource group (dust
buffers, sky geometry and material, renderer), each incremented exactly
when the corresponding dispose call runs (lines 267-278). -/

structure EngineState where
  animationId : Option ℕ
  disposed : Bool
  listenersInstalled : Bool
  dustDisposeCount : ℕ
  skyDisposeCount : ℕ
  rendererDisposeCount : ℕ
  deriving DecidableEq

/-- The state right after the GameEngine constructor. -/
def GameEngine.initState : EngineState :=
  { animationId := none, disposed := false, listenersInstalled := true,
    dustDisposeCount := 0, skyDisposeCount := 0, rendererDisposeCount := 0 }

/-- Lines 249-254: stop cancels the pending frame, if any. -/
def GameEngine.stop (s : EngineState) : EngineState :=
  match s.animationId with
  | some _ => { s with animationId := none }
  | none => s

/-- Lines 243-247: start schedules a frame unless already disposed. -/
def GameEngine.start (frameId : ℕ) (s : EngineState) : EngineState :=
  if s.disposed then s else { s with animationId := some frameId }

/-- Lines 256-279: dispose returns immediately when already disposed;
otherwise it sets the flag, stops the loop, removes the listeners and
releases the dust buffers, the sky geometry/material and the renderer
exactly once each. -/
def GameEngine.dispose (s : EngineState) : EngineState :=
  if s.disposed then s
  else
    let s1 := GameEngine.stop { s with disposed := true }
    { s1 with
      listenersInstalled := false
      dustDisposeCount := s1.dustDisposeCount + 1
      skyDisposeCount := s1.skyDisposeCount + 1
      rendererDisposeCount := s1.rendererDisposeCount + 1 }

theorem stop_disposed (s : EngineState) : (GameEngine.stop s).disposed = s.disposed := by
  rw [GameEngine.stop]
  match s with
  | ⟨some _, _, _, _, _, _⟩ => rfl
  | ⟨none, _, _, _, _, _⟩ => rfl

theorem dispose_disposed (s : EngineState) : (GameEngine.dispose s).disposed = true := by
  rw [GameEngine.dispose]
  by_cases h : s.disposed
  · rw [if_pos h]
    exact h
  · rw [if_neg h]
    simp only
    rw [stop_disposed]

/-- Claim C9: stopping twice in a row equals stopping once (the second stop
does nothing), disposing twice in a row equals disposing once (the guard
flag short-circuits the second call), and from the constructed engine any
number of dispose calls releases the dust buffers, the sky assets and the
renderer exactly once each. -/
theorem engine_stop_dispose_idempotent :
    (∀ s : EngineState, GameEngine.stop (GameEngine.stop s) = GameEngine.stop s) ∧
    (∀ s : EngineState, GameEngine.dispose (GameEngine.dispose s) = GameEngine.dispose s) ∧
    (∀ n : ℕ,
      (GameEngine.dispose^[n + 1] GameEngine.initState).dustDisposeCount = 1 ∧
      (GameEngine.dispose^[n + 1] GameEngine.initState).skyDisposeCount = 1 ∧
      (GameEngine.dispose^[n + 1] GameEngine.initState).rendererDisposeCount = 1) := by
  have hstop : ∀ s : EngineState, GameEngine.stop (GameEngine.stop s) = GameEngine.stop s := by
    intro s
    match s with
    | ⟨some _, _, _, _, _, _⟩ => rfl
    | ⟨none, _, _, _, _, _⟩ => rfl
  have hdisp : ∀ s : EngineState, GameEngine.dispose (GameEngine.dispose s) =
      GameEngine.dispose s := by
    intro s
    conv_lhs => rw [GameEngine.dispose]
    rw [if_pos (dispose_disposed s)]
  refine ⟨hstop, hdisp, fun n => ?_⟩
  have hiter : GameEngine.dispose^[n + 1] GameEngine.initState =
      GameEngine.dispose GameEngine.initState := by
    induction n with
    | zero => rfl
    | succ n ih =>
      rw [Function.iterate_succ_apply', ih, hdisp]
  rw [hiter]
  refine ⟨rfl, rfl, rfl⟩

/-- Claim C10: for non-positive delta the car update runs with
deltaFactor 1, exactly one nominal 60 fps frame: it equals the update with
delta 1/60, including the planet rotation magnitude, and is not a no-op
(from speed 1 at rest input, speed becomes 0.96); the dust system, in
contrast, ignores a zero-delta call entirely. -/
theorem car_update_nonpos_delta_nominal_frame :
    (∀ delta : ℝ, delta ≤ 0 → deltaFactor delta = 1) ∧
    (∀ (k : ℕ → Bool) (delta : ℝ) (c : CarState), delta ≤ 0 →
      Car.update k delta c = Car.update k (1 / 60) c ∧
      Car.rotationAmount k delta c = Car.rotationAmount k (1 / 60) c) ∧
    ((Car.update noKeys 0 ⟨1, 0, 0⟩).speed = 0.96 ∧ (0.96 : ℝ) ≠ 1) ∧
    (∀ (u : ℕ → ℝ) (maxParticles : ℕ) (emitterPosition backward up : Vec3)
      (speed : ℝ) (s : DustState),
      DustParticleSystem.update u maxParticles 0 emitterPosition backward up speed s = s) := by
  have hdf60 : deltaFactor (1 / 60) = 1 := by
    rw [deltaFactor, if_pos (by norm_num)]
    norm_num
  refine ⟨fun delta h => deltaFactor_of_nonpos h, fun k delta c h => ⟨?_, ?_⟩, ⟨?_, by norm_num⟩,
    fun u maxParticles emitterPosition backward up speed s => ?_⟩
  · simp only [Car.update, deltaFactor_of_nonpos h, hdf60]
  · simp only [Car.rotationAmount, Car.update, deltaFactor_of_nonpos h, hdf60]
  · have h1 : deltaFactor 0 = 1 := deltaFactor_of_nonpos le_rfl
    simp only [Car.update, noKeys, Bool.or_self, Bool.false_eq_true, if_false, h1,
      Real.rpow_one]
    norm_num
  · rw [DustParticleSystem.update, if_pos le_rfl]

/-- Witness for car_update_nonpos_delta_nominal_frame: the update at
delta -1 equals the update at delta 1/60 on the initial car state. -/
theorem car_update_nonpos_delta_nominal_frame_witness :
    Car.update noKeys (-1) carInit = Car.update noKeys (1 / 60) carInit :=
  (car_update_nonpos_delta_nominal_frame.2.1 noKeys (-1) carInit (by norm_num)).1

end TreeGame
